import Mathlib

/-!
Verification of the guillemot repository (Rietveld-refinement chat agent).

This file is a shallow embedding of the Python code of the repository into
Lean 4: pure data manipulation (filter-string construction, formula
sanitization, path manipulation, line splitting, history truncation) is
embedded as Lean functions on `String`/`List Char`/`Nat`/`Rat`; effectful
code (subprocess invocation, filesystem access, matplotlib axis mutation)
is embedded by passing the relevant part of the outside world (subprocess
outcome, an abstract file system, the sequence of axis-limit assignments)
explicitly.  Python exceptions are embedded with `Except`/`Option`.

Modelling conventions, stated once here:
* Python `str` is modelled as Lean `String` (or `List Char` internally);
  Python string comparison is code-point lexicographic, as in Lean.
* Python floats are modelled as exact rationals (`Rat`); the claims under
  study are about which arithmetic expressions the code computes, not
  about binary rounding.
* Python truthiness is modelled explicitly where the code relies on it
  (empty string / empty list / `None` are falsy).
* `os.path` / `pathlib` functions are modelled with POSIX separators.
-/

/-- Python exception values that the embedded code can raise. -/
inductive PyErr where
  | runtimeError (msg : String)
  | modelRetry (msg : String)
  | valueError (msg : String)
  | unboundLocal (name : String)
  | indexError (msg : String)
deriving DecidableEq

/-! ## Generic string helpers (models of Python primitives) -/

/-- Model of `pat in s` for Python strings: `pat` starts `s`. -/
def listStartsWith : List Char → List Char → Bool
  | [], _ => true
  | _ :: _, [] => false
  | p :: ps, c :: cs => p == c && listStartsWith ps cs

/-- Model of the Python substring test `pat in s` (contiguous containment). -/
def containsSub (pat : List Char) : List Char → Bool
  | [] => listStartsWith pat []
  | c :: rest => listStartsWith pat (c :: rest) || containsSub pat rest

/-- Splits a character list at its last dot: returns (before, dot-and-after);
if there is no dot, returns (whole, []). -/
def splitAtLastDot : List Char → List Char × List Char
  | [] => ([], [])
  | '.' :: rest =>
    let p := splitAtLastDot rest
    if p.2.isEmpty then ([], '.' :: rest) else ('.' :: p.1, p.2)
  | c :: rest =>
    let p := splitAtLastDot rest
    (c :: p.1, p.2)

/-- Splits a character list at its last slash: returns
(everything up to and including the last slash, remainder);
if there is no slash, returns ([], whole). -/
def splitAtLastSlash : List Char → List Char × List Char
  | [] => ([], [])
  | c :: rest =>
    if containsSub ['/'] rest then
      let p := splitAtLastSlash rest
      (c :: p.1, p.2)
    else if c == '/' then (['/'], rest)
    else ([], c :: rest)

/-- Characters treated as line boundaries by Python `str.splitlines`. -/
def isLineBreakChar (c : Char) : Bool :=
  c == '\n' || c == '\r' || c == '\x0b' || c == '\x0c' ||
  c == Char.ofNat 0x1c || c == Char.ofNat 0x1d || c == Char.ofNat 0x1e ||
  c == Char.ofNat 0x85 || c == Char.ofNat 0x2028 || c == Char.ofNat 0x2029

/-- Model of Python `str.splitlines` (`\r\n` counts as a single break;
no empty final line after a trailing terminator). -/
def pySplitlines : List Char → List (List Char)
  | [] => []
  | '\r' :: '\n' :: rest => [] :: pySplitlines rest
  | c :: rest =>
    if isLineBreakChar c then [] :: pySplitlines rest
    else
      match pySplitlines rest with
      | [] => [[c]]
      | l :: ls => (c :: l) :: ls

/-! ## OPTIMADE query layer: src/guillemot/tools/optimade.py -/

/-- Model of the Python f-string `f'"\x7bel\x7d"'`: wrap in double quotes. -/
def quoteElem (el : String) : String := "\"" ++ el ++ "\""

/-- Embedding of `_create_optimade_elements_filter`.  The Python code indexes
`quoted_elements[0]` in the single-element branch, which raises `IndexError`
on an empty list; that case is embedded as `none`. -/
def _create_optimade_elements_filter (elements : List String) : Option String :=
  let quoted_elements := elements.map quoteElem
  if elements.length > 1 then
    some ("elements HAS ALL " ++ String.intercalate "," quoted_elements ++
      " AND elements LENGTH " ++ toString quoted_elements.length)
  else
    match quoted_elements with
    | [] => none
    | q :: _ => some ("elements HAS " ++ q ++ " AND elements LENGTH 1")

/-- The regex class `[A-Z]` (ASCII uppercase). -/
def isUpperCh (c : Char) : Bool := 65 ≤ c.toNat && c.toNat ≤ 90

/-- The regex class `[a-z]` (ASCII lowercase). -/
def isLowerCh (c : Char) : Bool := 97 ≤ c.toNat && c.toNat ≤ 122

/-- The decimal digit class `[0-9]`. -/
def isDigitCh (c : Char) : Bool := 48 ≤ c.toNat && c.toNat ≤ 57

/-- Model of one step of the regex `[A-Z][a-z]?` scanner used by both
`re.findall` and `re.split` in `_sanitize_formula`: returns
(gaps, matched tokens); the gaps list always has one more entry than the
token list (text before the first match, between matches, after the last). -/
def regexScan : List Char → List (List Char) × List (List Char)
  | [] => ([[]], [])
  | [c] =>
    if isUpperCh c then ([[], []], [[c]])
    else ([[c]], [])
  | c :: c2 :: rest2 =>
    if isUpperCh c then
      if isLowerCh c2 then
        ([] :: (regexScan rest2).1, [c, c2] :: (regexScan rest2).2)
      else
        ([] :: (regexScan (c2 :: rest2)).1, [c] :: (regexScan (c2 :: rest2)).2)
    else
      match regexScan (c2 :: rest2) with
      | (g :: gs, ms) => ((c :: g) :: gs, ms)
      | ([], ms) => ([[c]], ms)

/-- Characters stripped by Python `int(str)` around the literal. -/
def isPyWS (c : Char) : Bool :=
  c == ' ' || c == '\t' || c == '\n' || c == '\r' || c == '\x0b' || c == '\x0c'

/-- Strips leading and trailing Python whitespace. -/
def stripWS (l : List Char) : List Char :=
  ((l.dropWhile isPyWS).reverse.dropWhile isPyWS).reverse

/-- Drops leading zeros from a digit string, keeping a single zero for the
all-zero string. -/
def canonDigits (ds : List Char) : List Char :=
  match ds.dropWhile (· == '0') with
  | [] => ['0']
  | r => r

/-- Model of Python `str(int(s))` on decimal literals: optional whitespace,
optional sign, then digits; the result is the canonical decimal rendering
(no leading zeros, no plus sign, no minus sign on zero).  Non-literals give
`none` (`ValueError`). -/
def pyIntCanon (s : List Char) : Option (List Char) :=
  let t := stripWS s
  let sd : Bool × List Char :=
    match t with
    | c :: r =>
      if c == '-' then (true, r)
      else if c == '+' then (false, r)
      else (false, c :: r)
    | [] => (false, [])
  if !sd.2.isEmpty && sd.2.all isDigitCh then
    let c := canonDigits sd.2
    some (if sd.1 && !(c == ['0']) then '-' :: c else c)
  else none

/-- Embedding of the count normalization in `_sanitize_formula`:
`str(int(num)) if num and str(num) != "1" else ""`. -/
def normCount (num : List Char) : Option (List Char) :=
  if num.isEmpty || num == ['1'] then some [] else pyIntCanon num

/-- Applies `normCount` to every count, failing (`ValueError`) if any single
count fails, as the Python list comprehension does. -/
def normAll : List (List Char) → Option (List (List Char))
  | [] => some []
  | n :: ns =>
    match normCount n, normAll ns with
    | some c, some cs => some (c :: cs)
    | _, _ => none

/-- Python string `<` (code-point lexicographic) on character lists. -/
def listCharLt : List Char → List Char → Bool
  | _, [] => false
  | [], _ :: _ => true
  | a :: as, b :: bs => if a < b then true else if b < a then false else listCharLt as bs

/-- Python tuple `<=` on (element, count) pairs, as used by `sorted`. -/
def pairLeB (p q : List Char × List Char) : Bool :=
  if listCharLt p.1 q.1 then true
  else if listCharLt q.1 p.1 then false
  else if listCharLt p.2 q.2 then true
  else if listCharLt q.2 p.2 then false
  else true

/-- The sorting relation of `sorted(zip(elements, numbers))` as a `Prop`. -/
def PairLe (p q : List Char × List Char) : Prop := pairLeB p q = true

instance : DecidableRel PairLe :=
  fun p q => inferInstanceAs (Decidable (pairLeB p q = true))

/-- Model of Python `sorted` on (element, count) pairs.  Python `sorted` is a
stable sort by the tuple order; since the sort key is the whole pair, the
sorted permutation is unique, so any sorted permutation (here Mathlib
insertion sort) coincides with it. -/
def sortPairs (l : List (List Char × List Char)) : List (List Char × List Char) :=
  List.insertionSort PairLe l

/-- Reassembles `"".join(f"\x7bel\x7d\x7bnum\x7d" ...)`. -/
def joinPairs (l : List (List Char × List Char)) : List Char :=
  l.foldr (fun p acc => p.1 ++ p.2 ++ acc) []

/-- Embedding of `_sanitize_formula` on character lists:
tokenize with `[A-Z][a-z]?`, normalize counts, sort the (element, count)
pairs, reassemble.  `none` models the `ValueError` that `int()` raises on a
non-numeric count. -/
def sanitizeChars (s : List Char) : Option (List Char) :=
  let gm := regexScan s
  let elements := gm.2
  match normAll (gm.1.drop 1) with
  | none => none
  | some numbers => some (joinPairs (sortPairs (List.zip elements numbers)))

/-- Embedding of `_sanitize_formula` on `String`. -/
def _sanitize_formula (s : String) : Option String :=
  (sanitizeChars s.data).map String.mk

/-- Python truthiness of an optional string argument. -/
def truthyStr : Option String → Bool
  | some s => !s.isEmpty
  | none => false

/-- Python truthiness of an optional list argument. -/
def truthyList : Option (List String) → Bool
  | some l => !l.isEmpty
  | none => false

/-- The fixed allow-list of databases in `get_optimade_cifs`. -/
def allowedDatabases : List String := ["cod", "mp", "oqmd"]

/-- Embedding of the argument-validation and filter-construction part of
`get_optimade_cifs` (everything before the network request is issued).
Arguments appear in the Python order `elements, formula, query, database`.
The `isinstance(elements, list)` check is vacuous in the typed embedding.
An `Except.error` models an exception raised before any query is issued;
an `Except.ok` carries the filter string that would be sent. -/
def get_optimade_cifs_filter (elements : Option (List String))
    (formula : Option String) (query : Option String) (database : String) :
    Except PyErr String :=
  if !(allowedDatabases.contains database) then
    Except.error (PyErr.runtimeError ("Unknown database \x27" ++ database ++
      "\x27. Must be one of \x27cod\x27, \x27mp\x27, or \x27oqmd\x27."))
  else if truthyStr query then Except.ok (query.getD "")
  else if truthyList elements then
    match _create_optimade_elements_filter (elements.getD []) with
    | some f => Except.ok f
    | none => Except.error (PyErr.indexError "list index out of range")
  else if truthyStr formula then
    if database = "cod" then
      Except.error (PyErr.modelRetry "Use elements rather than formula for cod search")
    else
      match _sanitize_formula (formula.getD "") with
      | some f => Except.ok ("chemical_formula_reduced=\"" ++ f ++ "\"")
      | none => Except.error (PyErr.valueError "invalid literal for int() with base 10")
  else
    Except.error (PyErr.runtimeError "Must provide either `elements` or `formula` or `query`.")

/-- Embedding of `pydantic_ai.BinaryContent` as used here: raw bytes plus a
media type. -/
structure BinaryContent where
  data : List Nat
  media_type : String
deriving DecidableEq

/-! ## Refinement tool: src/guillemot/tools/topas.py -/

/-- Model of `os.path.splitext(p)[0]` with POSIX separators: strips the last
extension of the final component, where leading dots of the component do not
start an extension. -/
def pySplitextRoot (p : List Char) : List Char :=
  let sp := splitAtLastSlash p
  let nd := splitAtLastDot sp.2
  if !nd.2.isEmpty && nd.1.any (fun c => !(c == '.')) then sp.1 ++ nd.1 else p

/-- Model of `os.path.join(a, b)` with POSIX separators. -/
def pyJoin (a b : List Char) : List Char :=
  if listStartsWith ['/'] b then b
  else if a.isEmpty || a.getLast? == some '/' then a ++ b
  else a ++ '/' :: b

/-- The fixed run directory of the topas tool. -/
def RUN_DIR : String := "run_dir"

/-- Embedding of the pydantic `SaveInpResult` model. -/
structure SaveInpResult where
  inp_path : String
  line_count : Nat
deriving DecidableEq

/-- Record of the single file write `save_topas_inp` performs: the
destination path and the exact content written (the write uses
`newline="\n"`, so the text is written untranslated). -/
structure FileWrite where
  path : String
  content : String
deriving DecidableEq

/-- The macro substring `save_topas_inp` demands:
`Out_X_Yobs_Ycalc("<basename>_output.txt")` for the extension-stripped
basename of the filename. -/
def topasMacro (filename : String) : List Char :=
  "Out_X_Yobs_Ycalc(\"".data ++ pySplitextRoot filename.data ++
    "_output.txt\")".data

/-- The destination path `save_topas_inp` writes to:
`join(RUN_DIR, f"<basename>.inp")`. -/
def topasInpPath (filename : String) : String :=
  String.mk (pyJoin RUN_DIR.data (pySplitextRoot filename.data ++ ".inp".data))

/-- Embedding of `save_topas_inp`: strip the extension, build the expected
macro string, reject (retryable `ModelRetry`) when the macro is absent from
the content, else write the content verbatim and return the path and the
`splitlines` count. -/
def save_topas_inp (filename : String) (inp_text : String) :
    Except PyErr (SaveInpResult × FileWrite) :=
  let inp_path := topasInpPath filename
  let output_macro_text := topasMacro filename
  if !(containsSub output_macro_text inp_text.data) then
    Except.error (PyErr.modelRetry
      ("input file doesn\x27t contain the correct output macro: " ++
        String.mk output_macro_text ++ ". Please try again."))
  else
    Except.ok (⟨inp_path, (pySplitlines inp_text.data).length⟩,
      ⟨inp_path, inp_text⟩)

/-- Outcome of the `subprocess.run` call on the external refinement binary:
either completion with an exit code and captured streams, or expiry of the
wall-clock timeout (`subprocess.TimeoutExpired`). -/
inductive SubprocOutcome where
  | completed (returncode : Int) (stdout stderr : String)
  | timedOut
deriving DecidableEq

/-- Embedding of the pydantic `PlotResultsOutput` model of the plotting
layer, as consumed by the topas tool. -/
structure PlotResultsOutput where
  output_filepath : String
  output_image : Option BinaryContent
deriving DecidableEq

/-- Embedding of the pydantic `RunRefinementResult` model.  Its own
declaration documents `status` as one of "success" | "failure" | "timeout". -/
structure RunRefinementResult where
  status : String
  stdout : String
  stderr : String
  outfile_path : Option String
  outfile_contents : Option String
  refinement_result_path : Option String
  logs_tail : Option String
  plot_results : Option PlotResultsOutput
deriving DecidableEq

/-- Model of Python `s.replace(".inp", rep)`: replaces every non-overlapping
occurrence, scanning left to right. -/
def replaceInpWith (rep : List Char) : List Char → List Char
  | '.' :: 'i' :: 'n' :: 'p' :: rest => rep ++ replaceInpWith rep rest
  | c :: rest => c :: replaceInpWith rep rest
  | [] => []

/-- Model of Python `s.replace("_output.txt", rep)`. -/
def replaceOutputTxtWith (rep : List Char) : List Char → List Char
  | '_' :: 'o' :: 'u' :: 't' :: 'p' :: 'u' :: 't' :: '.' :: 't' :: 'x' :: 't' :: rest =>
    rep ++ replaceOutputTxtWith rep rest
  | c :: rest => c :: replaceOutputTxtWith rep rest
  | [] => []

/-- Abstract text file system used by the topas tool: `os.path.isfile`
probes and whole-file text reads. -/
structure TextFS where
  isFile : String → Bool
  readFile : String → String

/-- Embedding of `run_topas_refinement`.  `outcome` is the behaviour of the
external subprocess; `plotFn` abstracts the plotting call
`plot_refinement_results(output_file, save_path, hkl_file)` (that callee is
imported but absent from this revision of the source; only the shape of its
result matters here).  In the `TimeoutExpired` branch the Python code sets
`status = "timeout"` and falls through, but the local `result` was never
bound, so building the final `RunRefinementResult` evaluates
`result.stdout` and raises `UnboundLocalError`; the embedding returns that
exception.  The `str(pathlib.Path(...))` round trip is the identity on the
separator-normal paths considered here. -/
def run_topas_refinement (fs : TextFS)
    (plotFn : String → String → Option String → PlotResultsOutput)
    (outcome : SubprocOutcome) (inp_path : String) :
    Except PyErr RunRefinementResult :=
  match outcome with
  | SubprocOutcome.timedOut => Except.error (PyErr.unboundLocal "result")
  | SubprocOutcome.completed rc out err =>
    let status := if rc = 0 then "success" else "failure"
    if status = "failure" then
      Except.error (PyErr.modelRetry
        ("TOPAS perhaps returned an error. stdout: " ++ out ++ ", " ++ err))
    else
      let outfile_path := String.mk (replaceInpWith ".out".data inp_path.data)
      let op : Option String × Option String :=
        if fs.isFile outfile_path then
          (some outfile_path, some (fs.readFile outfile_path))
        else (none, none)
      let rrp0 := String.mk (replaceInpWith "_output.txt".data inp_path.data)
      let refinement_result_path := if fs.isFile rrp0 then some rrp0 else none
      let hkl0 := String.mk (replaceInpWith "_hkl.txt".data inp_path.data)
      let hkl_file := if fs.isFile hkl0 then some hkl0 else none
      let plot_results :=
        match refinement_result_path with
        | some p =>
          some (plotFn p (String.mk (replaceOutputTxtWith "_plot.png".data p.data)) hkl_file)
        | none => none
      Except.ok ⟨status, out, err, op.1, op.2, refinement_result_path, none, plot_results⟩

/-! ## Plotting layer: src/guillemot/tools/plotting.py

The refinement output table is the parsed result of
`pd.read_csv(output_file, sep="\s+", header=None)`: a list of rows
(angle, observed, calculated) indexed by the default `RangeIndex`.
Intensities and angles are modelled as exact rationals.  The embedding
records the explicit axis-limit assignments (`set_xlim` / `set_ylim`) the
code performs; an absent assignment (`none`) means the library autoscale
is left in force.  The `hkl_file=None` invocation is embedded: reflection
ticks only add drawing calls and an earlier `set_ylim` computed from the
library autoscale state, which the functions under claim overwrite or
leave untouched in the parts the claims concern. -/

/-- Model of `pandas.Series.max` (`none` for an empty series, where pandas
produces NaN). -/
def listMaxQ : List ℚ → Option ℚ
  | [] => none
  | a :: rest =>
    match listMaxQ rest with
    | none => some a
    | some m => some (max a m)

/-- Model of `pandas.Series.min`. -/
def listMinQ : List ℚ → Option ℚ
  | [] => none
  | a :: rest =>
    match listMinQ rest with
    | none => some a
    | some m => some (min a m)

/-- Model of `pandas.Series.idxmax`: the first positional index attaining
the maximum, together with the maximum (pandas raises on an empty series,
embedded as `none`). -/
def idxmaxQ : List ℚ → Option (Nat × ℚ)
  | [] => none
  | a :: rest =>
    match idxmaxQ rest with
    | none => some (0, a)
    | some (j, m) => if m > a then some (j + 1, m) else some (0, a)

/-- Angle column of the refinement output table. -/
def colX (rows : List (ℚ × ℚ × ℚ)) : List ℚ := rows.map (fun r => r.1)

/-- Observed-intensity column of the refinement output table. -/
def colYobs (rows : List (ℚ × ℚ × ℚ)) : List ℚ := rows.map (fun r => r.2.1)

/-- Calculated-intensity column of the refinement output table. -/
def colYcalc (rows : List (ℚ × ℚ × ℚ)) : List ℚ := rows.map (fun r => r.2.2)

/-- Model of `(yobs - ycalc).abs()`. -/
def colResid (rows : List (ℚ × ℚ × ℚ)) : List ℚ :=
  rows.map (fun r => |r.2.1 - r.2.2|)

/-- Round to the nearest integer, ties to even, on exact rationals (the
rounding used by Python `format(x, ".2f")`, idealized to exact values). -/
def roundHalfEven (q : ℚ) : ℤ :=
  let f := ⌊q⌋
  let frac := q - f
  if frac < 1 / 2 then f
  else if 1 / 2 < frac then f + 1
  else if f % 2 = 0 then f else f + 1

/-- Model of the Python format specifier `:.2f` on exact rationals:
two decimal places, ties to even.  (A binary float that is a tiny negative
number would additionally render a leading minus sign under `:.2f`; no
claim under study depends on that corner.) -/
def fmt2 (q : ℚ) : String :=
  let n := roundHalfEven (q * 100)
  let m := n.natAbs
  let sign := if n < 0 then "-" else ""
  let fp := m % 100
  sign ++ toString (m / 100) ++ "." ++ (if fp < 10 then "0" else "") ++ toString fp

/-- Per-panel record of the multi-panel plot: the selected region, the
panel title, and the axis-limit assignments performed for that panel. -/
structure PanelSpec where
  x_range : Option (ℚ × ℚ)
  title : String
  main_xlim : Option (ℚ × ℚ)
  resid_xlim : Option (ℚ × ℚ)
  main_ylim_set : Option (ℚ × ℚ)
deriving DecidableEq

/-- Embedding of `plot_refinement_multi_panel` (with `hkl_file=None`):
computes the largest observed peak, the largest absolute residual, the
uppermost third of the angle range, builds the four `x_ranges` and
`titles`, and for each panel sets both axes to the panel range when one is
given.  No `set_ylim` call is made for any panel.  `none` models the
pandas exception on an empty table. -/
def plot_refinement_multi_panel (rows : List (ℚ × ℚ × ℚ)) :
    Option (List PanelSpec) :=
  let x := colX rows
  match idxmaxQ (colYobs rows), idxmaxQ (colResid rows),
      listMinQ x, listMaxQ x with
  | some pk, some rs, some x_min, some x_max =>
    let peak_2theta := x.getD pk.1 0
    let resid_2theta := x.getD rs.1 0
    let high_third_min := x_min + 2 / 3 * (x_max - x_min)
    let d_theta : ℚ := 3
    let x_ranges : List (Option (ℚ × ℚ)) :=
      [none,
       some (peak_2theta - d_theta, peak_2theta + d_theta),
       some (resid_2theta - d_theta, resid_2theta + d_theta),
       some (high_third_min, x_max)]
    let titles : List String :=
      ["Full range",
       "±3° around largest peak (" ++ fmt2 peak_2theta ++ "°)",
       "±3° around largest residual (" ++ fmt2 resid_2theta ++ "°)",
       "Highest third of 2θ range"]
    some (List.zipWith (fun r t => ⟨r, t, r, r, none⟩) x_ranges titles)
  | _, _, _, _ => none

/-- Axis state of the single-panel plot: the x-limits (shared between the
main and residual axes, `sharex=True`) and the explicit main-axis
intensity-limit assignment. -/
structure SinglePanelState where
  xlim : Option (ℚ × ℚ)
  main_ylim : Option (ℚ × ℚ)
deriving DecidableEq

/-- Embedding of `plot_refinement_single_panel` (with `hkl_file=None`):
when an `x_range` is supplied, both (shared) axes are set to it, and the
main-axis intensity limits are set to `(0, 1.1 * max_y)` with `max_y` the
maximum of the observed and calculated intensities at angles inside the
window.  A window containing no data point makes `max()` return NaN and
`set_ylim` raise, embedded as an error. -/
def plot_refinement_single_panel (rows : List (ℚ × ℚ × ℚ))
    (x_range : Option (ℚ × ℚ)) : Except String SinglePanelState :=
  match x_range with
  | none => Except.ok ⟨none, none⟩
  | some r =>
    let inWin := rows.filter (fun p => decide (r.1 ≤ p.1 ∧ p.1 ≤ r.2))
    match listMaxQ (inWin.map (fun p => p.2.1)),
        listMaxQ (inWin.map (fun p => p.2.2)) with
    | some mo, some mc => Except.ok ⟨some r, some (0, max mo mc * (11 / 10))⟩
    | _, _ => Except.error "Axis limits cannot be NaN or Inf"

/-- Specification-side predicate: `i` is the first position of the maximum
of `l`. -/
def IsFirstArgmax (l : List ℚ) (i : Nat) : Prop :=
  i < l.length ∧ (∀ j, j < l.length → l.getD j 0 ≤ l.getD i 0) ∧
    (∀ j, j < i → l.getD j 0 < l.getD i 0)

/-- Specification-side predicate: `m` is the maximum value of `l`. -/
def IsListMax (l : List ℚ) (m : ℚ) : Prop := m ∈ l ∧ ∀ a ∈ l, a ≤ m

/-- Specification-side predicate: `m` is the minimum value of `l`. -/
def IsListMin (l : List ℚ) (m : ℚ) : Prop := m ∈ l ∧ ∀ a ∈ l, m ≤ a

/-- All observed and calculated intensities of the table rows whose angle
lies in the closed window `[lo, hi]`. -/
def windowVals (rows : List (ℚ × ℚ × ℚ)) (lo hi : ℚ) : List ℚ :=
  let w := rows.filter (fun p => decide (lo ≤ p.1 ∧ p.1 ≤ hi))
  w.map (fun p => p.2.1) ++ w.map (fun p => p.2.2)

/-! ## Conversation history: src/guillemot/main.py -/

/-- One entry of the conversation log
(`dict` with role/content/has_image/timestamp in the Python code). -/
structure Message where
  role : String
  content : String
  has_image : Bool
  timestamp : String
deriving DecidableEq

/-- Embedding of the `ConversationHistory` dataclass. -/
structure ConversationHistory where
  messages : List Message
deriving DecidableEq

/-- Model of the Python slice `l[-n:]` for a non-negative `n`.
Note that `l[-0:]` is `l[0:]`, the whole list. -/
def pySliceLast (l : List α) (n : Nat) : List α :=
  if n = 0 then l else l.drop (l.length - n)

/-- Embedding of `ConversationHistory.add_message` (append to the log). -/
def add_message (h : ConversationHistory) (role content : String)
    (has_image : Bool) (timestamp : String) : ConversationHistory :=
  { h with messages := h.messages ++ [⟨role, content, has_image, timestamp⟩] }

/-- Embedding of `ConversationHistory.get_recent_messages`:
`return self.messages[-limit:]`. -/
def get_recent_messages (h : ConversationHistory) (limit : Nat) : List Message :=
  pySliceLast h.messages limit

/-- Embedding of the `clear` command: `conversation_history.messages.clear()`. -/
def clear_messages (h : ConversationHistory) : ConversationHistory :=
  { h with messages := [] }

/-! ## Image loader: src/guillemot/utils.py -/

/-- Abstract file system: existence, regular-file test, and byte reads
(which may fail, modelling `OSError` from `Path.read_bytes`). -/
structure PyFileSystem where
  pathExists : String → Bool
  pathIsFile : String → Bool
  readBytes : String → Except String (List Nat)

/-- Model of `pathlib.PurePath.name`: the final path component
(trailing slashes stripped). -/
def lastComponent (s : List Char) : List Char :=
  ((s.reverse.dropWhile (· == '/')).takeWhile (· != '/')).reverse

/-- Model of `pathlib.PurePath.suffix`: the extension of the final component,
including the dot; empty when the last dot is at position 0 or at the very
end of the name. -/
def pathSuffix (s : String) : String :=
  let name := lastComponent s.data
  let p := splitAtLastDot name
  if p.1.length > 0 && p.2.length > 1 then String.mk p.2 else ""

/-- Model of Python `str.lower` restricted to ASCII (the extensions compared
against are ASCII). -/
def asciiLower (s : String) : String := String.mk (s.data.map Char.toLower)

/-- Embedding of the `media_type_map` dictionary lookup with default
`"image/jpeg"`. -/
def mediaTypeFor (ext : String) : String :=
  if ext = ".jpg" then "image/jpeg"
  else if ext = ".jpeg" then "image/jpeg"
  else if ext = ".png" then "image/png"
  else if ext = ".gif" then "image/gif"
  else if ext = ".bmp" then "image/bmp"
  else if ext = ".webp" then "image/webp"
  else "image/jpeg"

/-- Embedding of `load_local_image`.  The whole body is wrapped in
`try/except Exception` returning `None`, so the embedding is a total
function into `Option`: missing path, non-file path, and failed reads all
yield `none`. -/
def load_local_image (fs : PyFileSystem) (image_path : String) :
    Option BinaryContent :=
  if !(fs.pathExists image_path) then none
  else if !(fs.pathIsFile image_path) then none
  else
    let media_type := mediaTypeFor (asciiLower (pathSuffix image_path))
    match fs.readBytes image_path with
    | Except.ok d => some ⟨d, media_type⟩
    | Except.error _ => none

/-! ## Predicates used to state the sanitization claims -/

/-- A string is a valid element token of the regex `[A-Z][a-z]?`:
one uppercase letter optionally followed by one lowercase letter. -/
def validElemTok : List Char → Bool
  | [u] => isUpperCh u
  | [u, l] => isUpperCh u && isLowerCh l
  | _ => false

/-- Every character is a decimal digit (vacuously true of the empty
count). -/
def digitsOnly (g : List Char) : Bool := g.all isDigitCh

/-- A count string in canonical decimal form: empty, or digits with no
leading zero (a single "0" is allowed). -/
def canonicalCount : List Char → Bool
  | [] => true
  | c :: rest => (c :: rest).all isDigitCh && (!(c == '0') || rest.isEmpty)

/-- The value of the count normalization on an all-digit count: empty and
"1" become empty, any other digit string loses its leading zeros. -/
def digitNorm (g : List Char) : List Char :=
  if g.isEmpty || g == ['1'] then [] else canonDigits g

/-- Every count token (regex-split gap) of the formula is in canonical
decimal form. -/
def CanonicalCounts (f : String) : Prop :=
  ∀ g ∈ (regexScan f.data).1.drop 1, canonicalCount g = true

/-- Every pair is a valid element token with an all-digit count. -/
def ValidPairs (l : List (List Char × List Char)) : Prop :=
  ∀ p ∈ l, validElemTok p.1 = true ∧ digitsOnly p.2 = true

/-! ## Fixtures used by concrete evaluations -/

/-- A file system with no files, for concrete runs of the topas tool. -/
def topasNoFS : TextFS := ⟨fun _ => false, fun _ => ""⟩

/-- A trivial stand-in for the plotting callee in concrete runs. -/
def topasNoPlot : String → String → Option String → PlotResultsOutput :=
  fun p _ _ => ⟨p, none⟩

/-- A file system holding exactly one readable image file. -/
def imgFS : PyFileSystem :=
  ⟨fun s => s == "photos/img.png", fun s => s == "photos/img.png",
   fun s => if s == "photos/img.png" then Except.ok [137, 80]
     else Except.error "missing"⟩

/-! ## Theorems -/

/-- C1: `run_topas_refinement` classifies exit code 0 as a `"success"`
result carrying the captured stdout and stderr, and surfaces a non-zero
exit code as a retryable `ModelRetry` embedding stdout and stderr; but on
timeout it does NOT return a `"timeout"` result: the `except` branch never
binds the local `result`, and the final constructor reads `result.stdout`,
so the call raises `UnboundLocalError`.  This contradicts the `"timeout"`
status documented by the code's own `RunRefinementResult` declaration: the
timeout leg of the claim describes the intent, the code has a slip. -/
theorem c1_run_topas_refinement_eval :
    run_topas_refinement topasNoFS topasNoPlot SubprocOutcome.timedOut
        "run_dir/job.inp" = Except.error (PyErr.unboundLocal "result") ∧
    run_topas_refinement topasNoFS topasNoPlot
        (SubprocOutcome.completed 0 "out text" "err text") "run_dir/job.inp" =
      Except.ok ⟨"success", "out text", "err text", none, none, none, none, none⟩ ∧
    run_topas_refinement topasNoFS topasNoPlot
        (SubprocOutcome.completed 1 "out text" "err text") "run_dir/job.inp" =
      Except.error (PyErr.modelRetry
        "TOPAS perhaps returned an error. stdout: out text, err text") :=
  ⟨rfl, rfl, rfl⟩

/-- C2: `save_topas_inp` raises the retryable `ModelRetry` exactly when the
content lacks the macro substring `Out_X_Yobs_Ycalc("<basename>_output.txt")`
for the extension-stripped basename; when the substring is present the
content is written unchanged to `run_dir/<basename>.inp` and the call
returns that path with the content's `splitlines` count. -/
theorem c2_save_topas_inp (filename inp_text : String) :
    (containsSub (topasMacro filename) inp_text.data = false →
      save_topas_inp filename inp_text = Except.error (PyErr.modelRetry
        ("input file doesn\x27t contain the correct output macro: " ++
          String.mk (topasMacro filename) ++ ". Please try again."))) ∧
    (containsSub (topasMacro filename) inp_text.data = true →
      save_topas_inp filename inp_text = Except.ok
        (⟨topasInpPath filename, (pySplitlines inp_text.data).length⟩,
         ⟨topasInpPath filename, inp_text⟩)) := by
  constructor <;> intro h <;> simp [save_topas_inp, h]

/-- C2 witness: a content that is exactly the macro line (no other
refinement directives) is accepted and written verbatim. -/
theorem c2_save_topas_inp_witness :
    containsSub (topasMacro "test.inp")
      "Out_X_Yobs_Ycalc(\"test_output.txt\")".data = true ∧
    save_topas_inp "test.inp" "Out_X_Yobs_Ycalc(\"test_output.txt\")" =
      Except.ok (⟨"run_dir/test.inp", 1⟩,
        ⟨"run_dir/test.inp", "Out_X_Yobs_Ycalc(\"test_output.txt\")"⟩) := by
  refine ⟨by decide, ?_⟩
  have h := (c2_save_topas_inp "test.inp"
    "Out_X_Yobs_Ycalc(\"test_output.txt\")").2 (by decide)
  rw [h]; exact rfl

/-- C3: a single-element list yields
`elements HAS "e" AND elements LENGTH 1` and a list of N > 1 elements
yields `elements HAS ALL "e1","e2",... AND elements LENGTH N`, elements
kept in order, none deduplicated or validated. -/
theorem c3_elements_filter :
    (∀ e : String, _create_optimade_elements_filter [e] =
      some ("elements HAS " ++ ("\"" ++ e ++ "\"") ++
        " AND elements LENGTH 1")) ∧
    (∀ (e1 e2 : String) (es : List String),
      _create_optimade_elements_filter (e1 :: e2 :: es) =
        some ("elements HAS ALL " ++
          String.intercalate "," ((e1 :: e2 :: es).map quoteElem) ++
          " AND elements LENGTH " ++ toString (es.length + 2))) := by
  constructor
  · intro e; rfl
  · intro e1 e2 es
    have hc : (e1 :: e2 :: es).length > 1 := by simp
    simp [_create_optimade_elements_filter, hc, List.length_map, quoteElem]

/-- C9: `load_local_image` is total (the Python body is wrapped in a
catch-all `try/except` returning `None`): a missing path, a non-file path,
or a failing read yields `none`, and otherwise the file bytes are returned
with the media type inferred from the lower-cased extension. -/
theorem c9_load_local_image (fs : PyFileSystem) (p : String) :
    (fs.pathExists p = false → load_local_image fs p = none) ∧
    (fs.pathIsFile p = false → load_local_image fs p = none) ∧
    (∀ e, fs.readBytes p = Except.error e → load_local_image fs p = none) ∧
    (∀ d, fs.pathExists p = true → fs.pathIsFile p = true →
      fs.readBytes p = Except.ok d →
      load_local_image fs p =
        some ⟨d, mediaTypeFor (asciiLower (pathSuffix p))⟩) := by
  refine ⟨?_, ?_, ?_, ?_⟩
  · intro h; simp [load_local_image, h]
  · intro h; cases he : fs.pathExists p <;>
      simp [load_local_image, h, he]
  · intro e h
    cases he : fs.pathExists p
    · simp [load_local_image, he]
    · cases hf : fs.pathIsFile p
      · simp [load_local_image, he, hf]
      · simp [load_local_image, he, hf, h]
  · intro d he hf hr; simp [load_local_image, he, hf, hr]

/-- C9 witness: a present, readable `.png` file yields its bytes with media
type `image/png`. -/
theorem c9_load_local_image_witness :
    imgFS.pathExists "photos/img.png" = true ∧
    load_local_image imgFS "photos/img.png" =
      some ⟨[137, 80], "image/png"⟩ := by
  refine ⟨by decide, ?_⟩
  have h := (c9_load_local_image imgFS "photos/img.png").2.2.2 [137, 80]
    (by decide) (by decide) (by rfl)
  rw [h]; exact rfl

/-- C10 counterexample: the claim quantifies over every N ≥ 0, but the
Python slice `messages[-0:]` is `messages[0:]`, the WHOLE history: with one
stored message, `get_recent_messages 0` returns that message, not the last
zero messages. -/
theorem c10_counterexample :
    get_recent_messages ⟨[⟨"user", "hi", false, "t0"⟩]⟩ 0 =
      [⟨"user", "hi", false, "t0"⟩] ∧
    (get_recent_messages ⟨[⟨"user", "hi", false, "t0"⟩]⟩ 0).length = 1 :=
  ⟨rfl, rfl⟩

/-- C10 amended: for every N ≥ 1, `get_recent_messages` returns exactly
the last `min N length` stored messages as a suffix in original append
order (the whole history when fewer than N are stored); for N = 0 the whole
history is returned; `clear` empties the log completely; `add_message`
appends, so the stored order is chronological.  The embedding is pure, so
reading never mutates the log. -/
theorem c10_history_amended :
    (∀ (h : ConversationHistory) (n : Nat), 1 ≤ n →
      (get_recent_messages h n).length = min n h.messages.length ∧
      (∃ p, p ++ get_recent_messages h n = h.messages)) ∧
    (∀ h : ConversationHistory, get_recent_messages h 0 = h.messages) ∧
    (∀ h : ConversationHistory, (clear_messages h).messages = []) ∧
    (∀ (h : ConversationHistory) (role content : String) (hi : Bool)
      (ts : String), (add_message h role content hi ts).messages =
        h.messages ++ [⟨role, content, hi, ts⟩]) := by
  refine ⟨?_, fun h => rfl, fun h => rfl, fun h r c hi ts => rfl⟩
  intro h n hn
  have hn0 : ¬ n = 0 := by omega
  constructor
  · simp [get_recent_messages, pySliceLast, hn0]
    omega
  · exact ⟨h.messages.take (h.messages.length - n),
      by simp [get_recent_messages, pySliceLast, hn0]⟩

/-- C10 witness: with two stored messages, the last one is returned for
N = 1, as a length-`min 1 2` suffix. -/
theorem c10_history_witness :
    (get_recent_messages ⟨[⟨"user", "a", false, "t0"⟩,
        ⟨"assistant", "b", false, "t1"⟩]⟩ 1).length =
      min 1 (ConversationHistory.messages ⟨[⟨"user", "a", false, "t0"⟩,
        ⟨"assistant", "b", false, "t1"⟩]⟩).length ∧
    (∃ p, p ++ get_recent_messages ⟨[⟨"user", "a", false, "t0"⟩,
        ⟨"assistant", "b", false, "t1"⟩]⟩ 1 =
      (ConversationHistory.messages ⟨[⟨"user", "a", false, "t0"⟩,
        ⟨"assistant", "b", false, "t1"⟩]⟩)) :=
  c10_history_amended.1 ⟨[⟨"user", "a", false, "t0"⟩,
    ⟨"assistant", "b", false, "t1"⟩]⟩ 1 (by decide)

/-- C5 counterexample: the claim demands that EXACTLY one of query,
elements, formula be supplied, yet supplying both an element list and a
formula raises nothing: the call succeeds and uses the elements filter
(which also exhibits the elements-over-formula precedence). -/
theorem c5_exactly_one_counterexample :
    get_optimade_cifs_filter (some ["Li"]) (some "NaCl") none "mp" =
      Except.ok "elements HAS \"Li\" AND elements LENGTH 1" := rfl

/-- C5 amended: at least one of raw query, elements, formula must be
supplied (in the Python truthiness sense); a supplied raw query takes
precedence over elements and elements take precedence over formula in
determining the filter; when none of the three is supplied a hard
`RuntimeError` is raised.  (Supplying more than one is not rejected; the
precedence order resolves it.) -/
theorem c5_params_amended (q : Option String) (e : Option (List String))
    (f : Option String) (db : String)
    (hdb : allowedDatabases.contains db = true) :
    (truthyStr q = true →
      get_optimade_cifs_filter e f q db = Except.ok (q.getD "")) ∧
    (truthyStr q = false → truthyList e = true →
      ∀ fl, _create_optimade_elements_filter (e.getD []) = some fl →
        get_optimade_cifs_filter e f q db = Except.ok fl) ∧
    (truthyStr q = false → truthyList e = false → truthyStr f = true →
      db = "cod" →
      get_optimade_cifs_filter e f q db = Except.error
        (PyErr.modelRetry "Use elements rather than formula for cod search")) ∧
    (truthyStr q = false → truthyList e = false → truthyStr f = true →
      db ≠ "cod" → ∀ sf, _sanitize_formula (f.getD "") = some sf →
      get_optimade_cifs_filter e f q db =
        Except.ok ("chemical_formula_reduced=\"" ++ sf ++ "\"")) ∧
    (truthyStr q = false → truthyList e = false → truthyStr f = false →
      get_optimade_cifs_filter e f q db = Except.error (PyErr.runtimeError
        "Must provide either `elements` or `formula` or `query`.")) := by
  have hdb2 : db ∈ allowedDatabases := by simpa using hdb
  refine ⟨?_, ?_, ?_, ?_, ?_⟩
  · intro hq; simp [get_optimade_cifs_filter, hdb2, hq]
  · intro hq he fl hfl; simp [get_optimade_cifs_filter, hdb2, hq, he, hfl]
  · intro hq he hform hcod
    subst hcod
    simp [get_optimade_cifs_filter, hdb2, hq, he, hform]
  · intro hq he hform hne sf hsf
    simp [get_optimade_cifs_filter, hdb2, hq, he, hform, hne, hsf]
  · intro hq he hform; simp [get_optimade_cifs_filter, hdb2, hq, he, hform]

/-- C5 witness: with elements and formula both supplied against "mp", the
elements branch is taken and its filter returned. -/
theorem c5_params_witness :
    get_optimade_cifs_filter (some ["Li", "O"]) (some "X") none "mp" =
      Except.ok "elements HAS ALL \"Li\",\"O\" AND elements LENGTH 2" :=
  (c5_params_amended none (some ["Li", "O"]) (some "X") "mp"
    (by decide)).2.1 (by rfl) (by rfl)
    "elements HAS ALL \"Li\",\"O\" AND elements LENGTH 2" (by rfl)

/-- C6 counterexample: the claim quantifies over every formula value, but
with the empty string as formula (falsy in Python) the cod call raises the
hard `RuntimeError` for missing parameters, not the retryable guidance
error. -/
theorem c6_cod_formula_counterexample :
    get_optimade_cifs_filter none (some "") none "cod" =
      Except.error (PyErr.runtimeError
        "Must provide either `elements` or `formula` or `query`.") ∧
    get_optimade_cifs_filter none (some "") none "cod" ≠
      Except.error (PyErr.modelRetry
        "Use elements rather than formula for cod search") := by
  refine ⟨rfl, ?_⟩
  intro h
  rw [show get_optimade_cifs_filter none (some "") none "cod" =
    Except.error (PyErr.runtimeError
      "Must provide either `elements` or `formula` or `query`.") from rfl] at h
  exact PyErr.noConfusion (Except.error.inj h)

/-- C6 amended: for every NON-EMPTY formula value (with no truthy query or
elements supplied), the cod search raises the retryable guidance error
directing the caller to element search, before any query would be issued
(the embedding covers exactly the pre-request computation). -/
theorem c6_cod_formula_amended (f : String) (hf : f ≠ "")
    (e : Option (List String)) (he : truthyList e = false)
    (q : Option String) (hq : truthyStr q = false) :
    get_optimade_cifs_filter e (some f) q "cod" =
      Except.error (PyErr.modelRetry
        "Use elements rather than formula for cod search") := by
  have hfe : f.isEmpty = false := by
    rw [Bool.eq_false_iff]
    intro hemp
    exact hf ((String.isEmpty_iff f).mp hemp)
  have hform : truthyStr (some f) = true := by simp [truthyStr, hfe]
  simp [get_optimade_cifs_filter, hq, he, hform, allowedDatabases]

/-- C6 witness: the non-empty formula "NaCoO2" against cod gets the
guidance error. -/
theorem c6_cod_formula_witness :
    ("NaCoO2" : String) ≠ "" ∧
    get_optimade_cifs_filter none (some "NaCoO2") none "cod" =
      Except.error (PyErr.modelRetry
        "Use elements rather than formula for cod search") :=
  ⟨by decide, c6_cod_formula_amended "NaCoO2" (by decide) none rfl none rfl⟩

/-! ## Lemmas about the pandas-primitive models -/

/-- The maximum model returns `none` exactly on the empty series. -/
theorem listMaxQ_eq_none_iff : ∀ {l : List ℚ}, listMaxQ l = none ↔ l = [] := by
  intro l
  cases l with
  | nil => simp [listMaxQ]
  | cons a rest =>
    simp only [listMaxQ]
    cases listMaxQ rest <;> simp

/-- The maximum model computes a maximum of the series. -/
theorem listMaxQ_isListMax : ∀ {l : List ℚ} {m : ℚ},
    listMaxQ l = some m → IsListMax l m := by
  intro l
  induction l with
  | nil => intro m h; simp [listMaxQ] at h
  | cons a rest ih =>
    intro m h
    simp only [listMaxQ] at h
    cases hr : listMaxQ rest with
    | none =>
      rw [hr] at h
      cases h
      have hnil : rest = [] := listMaxQ_eq_none_iff.mp hr
      subst hnil
      exact ⟨by simp, by intro x hx; simp at hx; simp [hx]⟩
    | some mr =>
      rw [hr] at h
      cases h
      obtain ⟨hmem, hle⟩ : mr ∈ rest ∧ ∀ x ∈ rest, x ≤ mr := ih hr
      constructor
      · rcases max_choice a mr with hc | hc <;> rw [hc]
        · exact List.mem_cons_self _ _
        · exact List.mem_cons_of_mem _ hmem
      · intro x hx
        rcases List.mem_cons.mp hx with rfl | hx2
        · exact le_max_left _ _
        · exact le_trans (hle x hx2) (le_max_right _ _)

/-- The minimum model returns `none` exactly on the empty series. -/
theorem listMinQ_eq_none_iff : ∀ {l : List ℚ}, listMinQ l = none ↔ l = [] := by
  intro l
  cases l with
  | nil => simp [listMinQ]
  | cons a rest =>
    simp only [listMinQ]
    cases listMinQ rest <;> simp

/-- The minimum model computes a minimum of the series. -/
theorem listMinQ_isListMin : ∀ {l : List ℚ} {m : ℚ},
    listMinQ l = some m → IsListMin l m := by
  intro l
  induction l with
  | nil => intro m h; simp [listMinQ] at h
  | cons a rest ih =>
    intro m h
    simp only [listMinQ] at h
    cases hr : listMinQ rest with
    | none =>
      rw [hr] at h
      cases h
      have hnil : rest = [] := listMinQ_eq_none_iff.mp hr
      subst hnil
      exact ⟨by simp, by intro x hx; simp at hx; simp [hx]⟩
    | some mr =>
      rw [hr] at h
      cases h
      obtain ⟨hmem, hle⟩ : mr ∈ rest ∧ ∀ x ∈ rest, mr ≤ x := ih hr
      constructor
      · rcases min_choice a mr with hc | hc <;> rw [hc]
        · exact List.mem_cons_self _ _
        · exact List.mem_cons_of_mem _ hmem
      · intro x hx
        rcases List.mem_cons.mp hx with rfl | hx2
        · exact min_le_left _ _
        · exact le_trans (min_le_right _ _) (hle x hx2)

/-- Maxima are unique. -/
theorem isListMax_unique {l : List ℚ} {m m' : ℚ}
    (h1 : IsListMax l m) (h2 : IsListMax l m') : m = m' := by
  obtain ⟨hm1, hb1⟩ := h1
  obtain ⟨hm2, hb2⟩ := h2
  exact le_antisymm (hb2 m hm1) (hb1 m' hm2)

/-- A non-empty series has a computed maximum. -/
theorem listMaxQ_of_ne_nil {l : List ℚ} (h : l ≠ []) :
    ∃ m, listMaxQ l = some m := by
  cases hm : listMaxQ l with
  | none => exact absurd (listMaxQ_eq_none_iff.mp hm) h
  | some m => exact ⟨m, rfl⟩

/-- A non-empty series has a computed minimum. -/
theorem listMinQ_of_ne_nil {l : List ℚ} (h : l ≠ []) :
    ∃ m, listMinQ l = some m := by
  cases hm : listMinQ l with
  | none => exact absurd (listMinQ_eq_none_iff.mp hm) h
  | some m => exact ⟨m, rfl⟩

/-- The idxmax model returns `none` exactly on the empty series. -/
theorem idxmaxQ_eq_none_iff : ∀ {l : List ℚ}, idxmaxQ l = none ↔ l = [] := by
  intro l
  cases l with
  | nil => simp [idxmaxQ]
  | cons a rest =>
    simp only [idxmaxQ]
    cases h : idxmaxQ rest with
    | none => simp
    | some q => cases q with | mk j m => by_cases hc : m > a <;> simp [hc]

/-- A non-empty series has a computed idxmax. -/
theorem idxmaxQ_of_ne_nil {l : List ℚ} (h : l ≠ []) :
    ∃ p, idxmaxQ l = some p := by
  cases hm : idxmaxQ l with
  | none => exact absurd (idxmaxQ_eq_none_iff.mp hm) h
  | some p => exact ⟨p, rfl⟩

/-- The idxmax model returns the FIRST position attaining the maximum,
paired with the maximum value. -/
theorem idxmaxQ_spec : ∀ {l : List ℚ} {p : Nat × ℚ}, idxmaxQ l = some p →
    IsFirstArgmax l p.1 ∧ p.2 = l.getD p.1 0 := by
  intro l
  induction l with
  | nil => intro p h; simp [idxmaxQ] at h
  | cons a rest ih =>
    intro p h
    simp only [idxmaxQ] at h
    cases hr : idxmaxQ rest with
    | none =>
      rw [hr] at h
      cases h
      have hnil : rest = [] := idxmaxQ_eq_none_iff.mp hr
      subst hnil
      refine ⟨⟨by simp, ?_, ?_⟩, by simp⟩
      · intro j hj
        simp at hj
        subst hj
        simp
      · intro j hj
        omega
    | some q =>
      rw [hr] at h
      obtain ⟨j, m⟩ := q
      have h2 : (if m > a then some (j + 1, m) else some (0, a)) = some p := h
      have hspec := ih hr
      simp only [IsFirstArgmax] at hspec
      obtain ⟨⟨hlen, hmax, hfirst⟩, hval⟩ := hspec
      by_cases hc : m > a
      · rw [if_pos hc] at h2
        cases h2
        simp only [IsFirstArgmax]
        refine ⟨⟨by simp; omega, ?_, ?_⟩,
          by rw [List.getD_cons_succ]; exact hval⟩
        · intro i hi
          cases i with
          | zero =>
            simp only [List.getD_cons_zero, List.getD_cons_succ]
            rw [← hval]
            exact le_of_lt hc
          | succ k =>
            simp only [List.getD_cons_succ]
            exact hmax k (by simp at hi; omega)
        · intro i hi
          cases i with
          | zero =>
            simp only [List.getD_cons_zero, List.getD_cons_succ]
            rw [← hval]
            exact hc
          | succ k =>
            simp only [List.getD_cons_succ]
            exact hfirst k (by omega)
      · rw [if_neg hc] at h2
        cases h2
        simp only [IsFirstArgmax]
        refine ⟨⟨by simp, ?_, ?_⟩, by simp⟩
        · intro i hi
          cases i with
          | zero => simp
          | succ k =>
            simp only [List.getD_cons_succ, List.getD_cons_zero]
            have hk : rest.getD k 0 ≤ rest.getD j 0 :=
              hmax k (by simp at hi; omega)
            rw [← hval] at hk
            exact le_trans hk (not_lt.mp hc)
        · intro i hi
          omega

/-- C7 counterexample: in the multi-panel variant the zoomed panels only
receive `set_xlim` on both axes; NO intensity-limit assignment is made
(`main_ylim_set = none` for every panel), so the main-axis upper limit is
left to the library autoscale of the full-range data instead of being set
to 1.1 times the in-window maximum.  On this table the second panel zooms
to (17, 23), where the claim would require the assignment
(0, 1.1 * 9) = (0, 99/10). -/
theorem c7_multi_panel_no_rescale_counterexample :
    ((plot_refinement_multi_panel
        [(10, 5, 4), (20, 9, 7), (30, 1, 1)]).getD []).map
      PanelSpec.main_ylim_set = [none, none, none, none] ∧
    ((plot_refinement_multi_panel
        [(10, 5, 4), (20, 9, 7), (30, 1, 1)]).getD []).map
      PanelSpec.main_xlim =
      [none, some (17, 23), some (17, 23), some (70/3, 30)] ∧
    listMaxQ (windowVals [(10, 5, 4), (20, 9, 7), (30, 1, 1)] 17 23) =
      some 9 := by
  refine ⟨?_, ?_, ?_⟩ <;>
    norm_num [plot_refinement_multi_panel, colX, colYobs, colYcalc, colResid,
      idxmaxQ, listMinQ, listMaxQ, windowVals, List.zipWith, List.filter]

/-- C7 amended: in the single-panel function a supplied angle window
restricts both (shared) axes and sets the main-axis intensity limits to
(0, 1.1 * m) with m the maximum of the observed and calculated intensities
inside the window; the multi-panel variant restricts both axes of each
zoomed panel to its sub-window but performs no intensity-limit
assignment. -/
theorem c7_zoom_rescale_amended :
    (∀ (rows : List (ℚ × ℚ × ℚ)) (lo hi m : ℚ),
      IsListMax (windowVals rows lo hi) m →
      plot_refinement_single_panel rows (some (lo, hi)) =
        Except.ok ⟨some (lo, hi), some (0, m * (11 / 10))⟩) ∧
    (∀ (rows : List (ℚ × ℚ × ℚ)) (panels : List PanelSpec),
      plot_refinement_multi_panel rows = some panels →
      ∀ ps ∈ panels, ps.main_xlim = ps.x_range ∧
        ps.resid_xlim = ps.x_range ∧ ps.main_ylim_set = none) := by
  constructor
  · intro rows lo hi m hm
    simp only [IsListMax, windowVals] at hm
    obtain ⟨hmem, hbound⟩ := hm
    have hw : rows.filter (fun p => decide (lo ≤ p.1 ∧ p.1 ≤ hi)) ≠ [] := by
      intro h0
      rw [h0] at hmem
      simp at hmem
    obtain ⟨mo, hmo⟩ := listMaxQ_of_ne_nil
      (l := (rows.filter (fun p => decide (lo ≤ p.1 ∧ p.1 ≤ hi))).map
        (fun p => p.2.1)) (by simpa using hw)
    obtain ⟨mc, hmc⟩ := listMaxQ_of_ne_nil
      (l := (rows.filter (fun p => decide (lo ≤ p.1 ∧ p.1 ≤ hi))).map
        (fun p => p.2.2)) (by simpa using hw)
    have hmax : max mo mc = m := by
      have ho := listMaxQ_isListMax hmo
      have hcC := listMaxQ_isListMax hmc
      obtain ⟨homem, hole⟩ := ho
      obtain ⟨hcmem, hcle⟩ := hcC
      apply isListMax_unique (l :=
        (rows.filter (fun p => decide (lo ≤ p.1 ∧ p.1 ≤ hi))).map
          (fun p => p.2.1) ++
        (rows.filter (fun p => decide (lo ≤ p.1 ∧ p.1 ≤ hi))).map
          (fun p => p.2.2))
      · constructor
        · rcases max_choice mo mc with hc | hc <;> rw [hc]
          · exact List.mem_append_left _ homem
          · exact List.mem_append_right _ hcmem
        · intro x hx
          rcases List.mem_append.mp hx with hx2 | hx2
          · exact le_trans (hole x hx2) (le_max_left _ _)
          · exact le_trans (hcle x hx2) (le_max_right _ _)
      · exact ⟨hmem, hbound⟩
    simp only [plot_refinement_single_panel]
    rw [hmo, hmc]
    have hmax2 : max mo mc = m := hmax
    simp [hmax2]
  · intro rows panels h ps hps
    simp only [plot_refinement_multi_panel] at h
    split at h
    · cases h
      simp only [List.zipWith, List.mem_cons, List.not_mem_nil, or_false] at hps
      rcases hps with rfl | rfl | rfl | rfl <;> exact ⟨rfl, rfl, rfl⟩
    · cases h

/-- C7 witness: a concrete single-panel zoom to (15, 25) on a table whose
in-window maximum is 9 sets the shared x-limits and the intensity limits
(0, 9 * 1.1). -/
theorem c7_zoom_rescale_witness :
    plot_refinement_single_panel [(10, 5, 4), (20, 9, 7), (30, 1, 1)]
        (some (15, 25)) =
      Except.ok ⟨some (15, 25), some (0, 9 * (11 / 10))⟩ :=
  c7_zoom_rescale_amended.1 [(10, 5, 4), (20, 9, 7), (30, 1, 1)] 15 25 9
    (by norm_num [IsListMax, windowVals, List.filter])

/-- C8: on every non-empty table the multi-panel plot selects exactly four
regions: the full range, plus/minus 3 degrees around the angle of the
first maximal observed intensity, plus/minus 3 degrees around the angle of
the first maximal absolute residual, and the uppermost third
[x_min + (2/3)(x_max - x_min), x_max]; the second panel's title embeds the
largest-peak angle rendered with two decimal places. -/
theorem c8_multi_panel_regions (rows : List (ℚ × ℚ × ℚ)) (hne : rows ≠ []) :
    ∃ panels, plot_refinement_multi_panel rows = some panels ∧
      panels.length = 4 ∧
      ∃ i j x_min x_max,
        IsFirstArgmax (colYobs rows) i ∧
        IsFirstArgmax (colResid rows) j ∧
        IsListMin (colX rows) x_min ∧
        IsListMax (colX rows) x_max ∧
        panels.map PanelSpec.x_range =
          [none,
           some ((colX rows).getD i 0 - 3, (colX rows).getD i 0 + 3),
           some ((colX rows).getD j 0 - 3, (colX rows).getD j 0 + 3),
           some (x_min + 2 / 3 * (x_max - x_min), x_max)] ∧
        (panels.map PanelSpec.title).getD 1 "" =
          "±3° around largest peak (" ++ fmt2 ((colX rows).getD i 0) ++
            "°)" := by
  obtain ⟨pk, hpk⟩ := idxmaxQ_of_ne_nil (l := colYobs rows)
    (by simp [colYobs, hne])
  obtain ⟨rs, hrs⟩ := idxmaxQ_of_ne_nil (l := colResid rows)
    (by simp [colResid, hne])
  obtain ⟨xmin, hxmin⟩ := listMinQ_of_ne_nil (l := colX rows)
    (by simp [colX, hne])
  obtain ⟨xmax, hxmax⟩ := listMaxQ_of_ne_nil (l := colX rows)
    (by simp [colX, hne])
  have hplot : plot_refinement_multi_panel rows = some
      [⟨none, "Full range", none, none, none⟩,
       ⟨some ((colX rows).getD pk.1 0 - 3, (colX rows).getD pk.1 0 + 3),
        "±3° around largest peak (" ++ fmt2 ((colX rows).getD pk.1 0) ++ "°)",
        some ((colX rows).getD pk.1 0 - 3, (colX rows).getD pk.1 0 + 3),
        some ((colX rows).getD pk.1 0 - 3, (colX rows).getD pk.1 0 + 3), none⟩,
       ⟨some ((colX rows).getD rs.1 0 - 3, (colX rows).getD rs.1 0 + 3),
        "±3° around largest residual (" ++ fmt2 ((colX rows).getD rs.1 0) ++ "°)",
        some ((colX rows).getD rs.1 0 - 3, (colX rows).getD rs.1 0 + 3),
        some ((colX rows).getD rs.1 0 - 3, (colX rows).getD rs.1 0 + 3), none⟩,
       ⟨some (xmin + 2 / 3 * (xmax - xmin), xmax),
        "Highest third of 2θ range",
        some (xmin + 2 / 3 * (xmax - xmin), xmax),
        some (xmin + 2 / 3 * (xmax - xmin), xmax), none⟩] := by
    simp only [plot_refinement_multi_panel, hpk, hrs, hxmin, hxmax,
      List.zipWith]
  exact ⟨_, hplot, rfl, pk.1, rs.1, xmin, xmax, (idxmaxQ_spec hpk).1,
    (idxmaxQ_spec hrs).1, listMinQ_isListMin hxmin, listMaxQ_isListMax hxmax,
    rfl, rfl⟩

/-- C8 witness: a concrete table with its largest observed peak at angle
20 yields the four panel regions and the second-panel title
"±3° around largest peak (20.00°)". -/
theorem c8_multi_panel_regions_witness :
    fmt2 20 = "20.00" ∧
    ∃ panels, plot_refinement_multi_panel
        [(10, 5, 4), (20, 9, 7), (40, 1, 1)] = some panels ∧
      panels.length = 4 ∧
      ∃ i j x_min x_max,
        IsFirstArgmax (colYobs [(10, 5, 4), (20, 9, 7), (40, 1, 1)]) i ∧
        IsFirstArgmax (colResid [(10, 5, 4), (20, 9, 7), (40, 1, 1)]) j ∧
        IsListMin (colX [(10, 5, 4), (20, 9, 7), (40, 1, 1)]) x_min ∧
        IsListMax (colX [(10, 5, 4), (20, 9, 7), (40, 1, 1)]) x_max ∧
        panels.map PanelSpec.x_range =
          [none,
           some ((colX [(10, 5, 4), (20, 9, 7), (40, 1, 1)]).getD i 0 - 3,
             (colX [(10, 5, 4), (20, 9, 7), (40, 1, 1)]).getD i 0 + 3),
           some ((colX [(10, 5, 4), (20, 9, 7), (40, 1, 1)]).getD j 0 - 3,
             (colX [(10, 5, 4), (20, 9, 7), (40, 1, 1)]).getD j 0 + 3),
           some (x_min + 2 / 3 * (x_max - x_min), x_max)] ∧
        (panels.map PanelSpec.title).getD 1 "" =
          "±3° around largest peak (" ++
            fmt2 ((colX [(10, 5, 4), (20, 9, 7), (40, 1, 1)]).getD i 0) ++
            "°)" :=
  ⟨by
    have h : roundHalfEven (20 * 100) = 2000 := by norm_num [roundHalfEven]
    simp only [fmt2, h]
    rfl,
   c8_multi_panel_regions [(10, 5, 4), (20, 9, 7), (40, 1, 1)] (by simp)⟩

/-! ## Lemmas about the character classes and the pair ordering -/

/-- Digits are not uppercase letters. -/
theorem isDigitCh_not_upper {c : Char} (h : isDigitCh c = true) :
    isUpperCh c = false := by
  simp [isDigitCh] at h
  simp [isUpperCh]
  omega

/-- Digits are not lowercase letters. -/
theorem isDigitCh_not_lower {c : Char} (h : isDigitCh c = true) :
    isLowerCh c = false := by
  simp [isDigitCh] at h
  simp [isLowerCh]
  omega

/-- Uppercase letters are not lowercase letters. -/
theorem isUpperCh_not_lower {c : Char} (h : isUpperCh c = true) :
    isLowerCh c = false := by
  simp [isUpperCh] at h
  simp [isLowerCh]
  omega

/-- Digits are not Python whitespace. -/
theorem isDigitCh_not_ws {c : Char} (h : isDigitCh c = true) :
    isPyWS c = false := by
  cases hw : isPyWS c
  · rfl
  · exfalso
    simp only [isPyWS, Bool.or_eq_true, beq_iff_eq] at hw
    simp [isDigitCh] at h
    rcases hw with ((((h1 | h1) | h1) | h1) | h1) | h1 <;> subst h1 <;>
      revert h <;> decide

/-- The lexicographic order is irreflexive. -/
theorem listCharLt_irrefl : ∀ a, listCharLt a a = false
  | [] => rfl
  | c :: t => by simp [listCharLt, listCharLt_irrefl t]

/-- The lexicographic order is asymmetric. -/
theorem listCharLt_asymm : ∀ a b, listCharLt a b = true →
    listCharLt b a = false := by
  intro a
  induction a with
  | nil =>
    intro b h
    cases b with
    | nil => simp [listCharLt] at h
    | cons d s => simp [listCharLt]
  | cons c t ih =>
    intro b h
    cases b with
    | nil => simp [listCharLt] at h
    | cons d s =>
      simp only [listCharLt] at h ⊢
      by_cases h1 : c < d
      · rw [if_neg (lt_asymm h1), if_pos h1]
      · by_cases h2 : d < c
        · rw [if_neg h1, if_pos h2] at h
          exact absurd h (by simp)
        · rw [if_neg h1, if_neg h2] at h
          rw [if_neg h2, if_neg h1]
          exact ih s h

/-- Two lists neither of which is lexicographically below the other are
equal. -/
theorem listCharLt_eq_of_not : ∀ a b, listCharLt a b = false →
    listCharLt b a = false → a = b := by
  intro a
  induction a with
  | nil =>
    intro b h1 h2
    cases b with
    | nil => rfl
    | cons d s => simp [listCharLt] at h1
  | cons c t ih =>
    intro b h1 h2
    cases b with
    | nil => simp [listCharLt] at h2
    | cons d s =>
      simp only [listCharLt] at h1 h2
      by_cases hcd : c < d
      · rw [if_pos hcd] at h1
        exact absurd h1 (by simp)
      · by_cases hdc : d < c
        · rw [if_pos hdc] at h2
          exact absurd h2 (by simp)
        · rw [if_neg hcd, if_neg hdc] at h1
          rw [if_neg hdc, if_neg hcd] at h2
          have hc : c = d := le_antisymm (not_lt.mp hdc) (not_lt.mp hcd)
          rw [hc, ih s h1 h2]

/-- The lexicographic order is transitive. -/
theorem listCharLt_trans : ∀ a b c, listCharLt a b = true →
    listCharLt b c = true → listCharLt a c = true := by
  intro a
  induction a with
  | nil =>
    intro b c h1 h2
    cases c with
    | nil =>
      cases b with
      | nil => simpa [listCharLt] using h1
      | cons d s => simpa [listCharLt] using h2
    | cons e r => simp [listCharLt]
  | cons x t ih =>
    intro b c h1 h2
    cases b with
    | nil => simp [listCharLt] at h1
    | cons y s =>
      cases c with
      | nil => simp [listCharLt] at h2
      | cons z r =>
        simp only [listCharLt] at h1 h2 ⊢
        by_cases hxy : x < y
        · by_cases hyz : y < z
          · rw [if_pos (lt_trans hxy hyz)]
          · by_cases hzy : z < y
            · rw [if_neg hyz, if_pos hzy] at h2
              exact absurd h2 (by simp)
            · have he : y = z := le_antisymm (not_lt.mp hzy) (not_lt.mp hyz)
              subst he
              rw [if_pos hxy]
        · by_cases hyx : y < x
          · rw [if_neg hxy, if_pos hyx] at h1
            exact absurd h1 (by simp)
          · have he : x = y := le_antisymm (not_lt.mp hyx) (not_lt.mp hxy)
            subst he
            rw [if_neg hxy, if_neg hyx] at h1
            by_cases hxz : x < z
            · rw [if_pos hxz]
            · by_cases hzx : z < x
              · rw [if_neg hxz, if_pos hzx] at h2
                exact absurd h2 (by simp)
              · have he2 : x = z := le_antisymm (not_lt.mp hzx) (not_lt.mp hxz)
                subst he2
                rw [if_neg hxz, if_neg hzx] at h2
                rw [if_neg hxz, if_neg hzx]
                exact ih s r h1 h2

/-- Characterization of the pair ordering as the Python tuple order. -/
theorem pairLeB_iff {p q : List Char × List Char} : pairLeB p q = true ↔
    (listCharLt p.1 q.1 = true ∨
      (p.1 = q.1 ∧ (listCharLt p.2 q.2 = true ∨ p.2 = q.2))) := by
  simp only [pairLeB]
  by_cases h1 : listCharLt p.1 q.1 = true
  · simp [h1]
  · have h1f : listCharLt p.1 q.1 = false := by simpa using h1
    rw [h1f]
    by_cases h2 : listCharLt q.1 p.1 = true
    · have hne : ¬ p.1 = q.1 := by
        intro he
        rw [he] at h2
        rw [listCharLt_irrefl] at h2
        exact absurd h2 (by simp)
      simp [h2, h1f, hne]
    · have h2f : listCharLt q.1 p.1 = false := by simpa using h2
      have heq : p.1 = q.1 := listCharLt_eq_of_not _ _ h1f h2f
      rw [h2f]
      by_cases h3 : listCharLt p.2 q.2 = true
      · simp [h3, heq]
      · have h3f : listCharLt p.2 q.2 = false := by simpa using h3
        rw [h3f]
        by_cases h4 : listCharLt q.2 p.2 = true
        · have hne2 : ¬ p.2 = q.2 := by
            intro he
            rw [he] at h4
            rw [listCharLt_irrefl] at h4
            exact absurd h4 (by simp)
          simp [h4, h3f, hne2, heq]
        · have h4f : listCharLt q.2 p.2 = false := by simpa using h4
          have heq2 : p.2 = q.2 := listCharLt_eq_of_not _ _ h3f h4f
          simp [h4f, heq, heq2, listCharLt_irrefl]

instance : IsTotal (List Char × List Char) PairLe := by
  constructor
  intro p q
  by_cases h1 : listCharLt p.1 q.1 = true
  · exact Or.inl (pairLeB_iff.mpr (Or.inl h1))
  · by_cases h2 : listCharLt q.1 p.1 = true
    · exact Or.inr (pairLeB_iff.mpr (Or.inl h2))
    · have heq : p.1 = q.1 := listCharLt_eq_of_not _ _ (by simpa using h1)
        (by simpa using h2)
      by_cases h3 : listCharLt p.2 q.2 = true
      · exact Or.inl (pairLeB_iff.mpr (Or.inr ⟨heq, Or.inl h3⟩))
      · by_cases h4 : listCharLt q.2 p.2 = true
        · exact Or.inr (pairLeB_iff.mpr (Or.inr ⟨heq.symm, Or.inl h4⟩))
        · have heq2 : p.2 = q.2 := listCharLt_eq_of_not _ _ (by simpa using h3)
            (by simpa using h4)
          exact Or.inl (pairLeB_iff.mpr (Or.inr ⟨heq, Or.inr heq2⟩))

instance : IsAntisymm (List Char × List Char) PairLe := by
  constructor
  intro p q hp hq
  rcases pairLeB_iff.mp hp with hlt | ⟨heq, hsnd⟩
  · rcases pairLeB_iff.mp hq with hlt2 | ⟨heq2, _⟩
    · rw [listCharLt_asymm _ _ hlt] at hlt2
      exact absurd hlt2 (by simp)
    · rw [heq2] at hlt
      rw [listCharLt_irrefl] at hlt
      exact absurd hlt (by simp)
  · rcases pairLeB_iff.mp hq with hlt2 | ⟨_, hsnd2⟩
    · rw [heq] at hlt2
      rw [listCharLt_irrefl] at hlt2
      exact absurd hlt2 (by simp)
    · rcases hsnd with hlt3 | heq3
      · rcases hsnd2 with hlt4 | heq4
        · rw [listCharLt_asymm _ _ hlt3] at hlt4
          exact absurd hlt4 (by simp)
        · rw [heq4] at hlt3
          rw [listCharLt_irrefl] at hlt3
          exact absurd hlt3 (by simp)
      · exact Prod.ext heq heq3

instance : IsTrans (List Char × List Char) PairLe := by
  constructor
  intro p q r hpq hqr
  rcases pairLeB_iff.mp hpq with hlt | ⟨heq, hsnd⟩
  · rcases pairLeB_iff.mp hqr with hlt2 | ⟨heq2, _⟩
    · exact pairLeB_iff.mpr (Or.inl (listCharLt_trans _ _ _ hlt hlt2))
    · exact pairLeB_iff.mpr (Or.inl (heq2 ▸ hlt))
  · rcases pairLeB_iff.mp hqr with hlt2 | ⟨heq2, hsnd2⟩
    · exact pairLeB_iff.mpr (Or.inl (heq ▸ hlt2))
    · refine pairLeB_iff.mpr (Or.inr ⟨heq.trans heq2, ?_⟩)
      rcases hsnd with hlt3 | heq3
      · rcases hsnd2 with hlt4 | heq4
        · exact Or.inl (listCharLt_trans _ _ _ hlt3 hlt4)
        · exact Or.inl (heq4 ▸ hlt3)
      · rcases hsnd2 with hlt4 | heq4
        · exact Or.inl (heq3 ▸ hlt4)
        · exact Or.inr (heq3.trans heq4)

/-! ## Lemmas about the regex scanner -/

/-- The gap list of a scan is never empty. -/
theorem regexScan_fst_ne_nil : ∀ s, (regexScan s).1 ≠ [] := by
  intro s
  induction s using regexScan.induct with
  | case1 => simp [regexScan]
  | case2 c hup => simp [regexScan, hup]
  | case3 c hup => simp [regexScan, hup]
  | case4 c c2 rest2 hup hlow ih => simp [regexScan, hup, hlow]
  | case5 c c2 rest2 hup hlow ih => simp [regexScan, hup, hlow]
  | case6 c c2 rest2 hc g gs ms hr ih => simp [regexScan, hc, hr]
  | case7 c c2 rest2 hc ms hr ih =>
    exfalso
    exact ih (by rw [hr])

/-- There is always exactly one more gap than there are matches. -/
theorem regexScan_len : ∀ s,
    (regexScan s).1.length = (regexScan s).2.length + 1 := by
  intro s
  induction s using regexScan.induct with
  | case1 => simp [regexScan]
  | case2 c hup => simp [regexScan, hup]
  | case3 c hup => simp [regexScan, hup]
  | case4 c c2 rest2 hup hlow ih => simp [regexScan, hup, hlow, ih]
  | case5 c c2 rest2 hup hlow ih => simp [regexScan, hup, hlow, ih]
  | case6 c c2 rest2 hc g gs ms hr ih =>
    rw [hr] at ih
    simp at ih
    simp [regexScan, hc, hr]
    omega
  | case7 c c2 rest2 hc ms hr ih =>
    exfalso
    exact regexScan_fst_ne_nil (c2 :: rest2) (by rw [hr])

/-- Every match produced by the scanner is a valid `[A-Z][a-z]?` token. -/
theorem regexScan_matches_valid : ∀ s, ∀ m ∈ (regexScan s).2,
    validElemTok m = true := by
  intro s
  induction s using regexScan.induct with
  | case1 => simp [regexScan]
  | case2 c hup =>
    intro m hm
    simp only [regexScan, if_pos hup, List.mem_singleton] at hm
    subst hm
    simp [validElemTok, hup]
  | case3 c hup =>
    intro m hm
    simp only [regexScan, if_neg hup] at hm
    simp at hm
  | case4 c c2 rest2 hup hlow ih =>
    intro m hm
    simp only [regexScan, if_pos hup, if_pos hlow, List.mem_cons] at hm
    rcases hm with rfl | hm
    · simp [validElemTok, hup, hlow]
    · exact ih m hm
  | case5 c c2 rest2 hup hlow ih =>
    intro m hm
    simp only [regexScan, if_pos hup, if_neg hlow, List.mem_cons] at hm
    rcases hm with rfl | hm
    · simp [validElemTok, hup]
    · exact ih m hm
  | case6 c c2 rest2 hc g gs ms hr ih =>
    intro m hm
    simp only [regexScan] at hm
    rw [if_neg hc, hr] at hm
    exact ih m (by rw [hr]; simpa using hm)
  | case7 c c2 rest2 hc ms hr ih =>
    exfalso
    exact regexScan_fst_ne_nil (c2 :: rest2) (by rw [hr])

/-- Scanning a match-free prefix (no uppercase characters) prepends it to
the first gap. -/
theorem regexScan_append_neutral : ∀ (g : List Char),
    (∀ c ∈ g, isUpperCh c = false) →
    ∀ s h t ms, regexScan s = (h :: t, ms) →
    regexScan (g ++ s) = ((g ++ h) :: t, ms) := by
  intro g
  induction g with
  | nil => intro hn s h t ms hs; simpa using hs
  | cons c g2 ih =>
    intro hn s h t ms hs
    have hcup : isUpperCh c = false := hn c (List.mem_cons_self _ _)
    have hrec := ih (fun d hd => hn d (List.mem_cons_of_mem _ hd)) s h t ms hs
    show regexScan (c :: (g2 ++ s)) = _
    cases hgs : g2 ++ s with
    | nil =>
      have hg2 : g2 = [] := List.append_eq_nil.mp hgs |>.1
      have hsnil : s = [] := List.append_eq_nil.mp hgs |>.2
      subst hg2 hsnil
      simp only [regexScan] at hs
      cases hs
      simp [regexScan, hcup]
    | cons d l2 =>
      rw [hgs] at hrec
      simp only [regexScan]
      rw [if_neg (by simp [hcup]), hrec]
      simp

/-! ## Lemmas about count normalization -/

/-- Canonical counts are all-digit strings. -/
theorem canonicalCount_digitsOnly {g : List Char}
    (h : canonicalCount g = true) : digitsOnly g = true := by
  cases g with
  | nil => rfl
  | cons c rest =>
    simp only [canonicalCount, Bool.and_eq_true] at h
    simpa [digitsOnly] using h.1

/-- Dropping with an everywhere-false predicate is the identity. -/
theorem dropWhile_all_false {p : Char → Bool} :
    ∀ l : List Char, (∀ c ∈ l, p c = false) → l.dropWhile p = l := by
  intro l h
  cases l with
  | nil => rfl
  | cons c t =>
    rw [List.dropWhile_cons, if_neg (by simp [h c (List.mem_cons_self _ _)])]

/-- The head of a `dropWhile` result fails the predicate. -/
theorem dropWhile_head_false {p : Char → Bool} :
    ∀ (l : List Char) (c : Char) (r : List Char),
    l.dropWhile p = c :: r → p c = false := by
  intro l
  induction l with
  | nil => intro c r h; simp at h
  | cons a t ih =>
    intro c r h
    rw [List.dropWhile_cons] at h
    by_cases ha : p a = true
    · rw [if_pos (by simp [ha])] at h
      exact ih c r h
    · rw [if_neg (by simpa using ha)] at h
      cases h
      simpa using ha

/-- Stripping whitespace from an all-digit string is the identity. -/
theorem stripWS_digits {g : List Char} (h : digitsOnly g = true) :
    stripWS g = g := by
  have hmem : ∀ c ∈ g, isPyWS c = false := by
    intro c hc
    apply isDigitCh_not_ws
    simp only [digitsOnly, List.all_eq_true] at h
    simpa using h c hc
  have h1 : g.dropWhile isPyWS = g := dropWhile_all_false g hmem
  have h2 : g.reverse.dropWhile isPyWS = g.reverse := dropWhile_all_false _
    (by intro c hc; exact hmem c (List.mem_reverse.mp hc))
  simp [stripWS, h1, h2]

/-- The canonical-digit normalizer leaves a canonically written nonempty
count unchanged. -/
theorem canonDigits_of_canonical {g : List Char}
    (hc : canonicalCount g = true) (hne : g ≠ []) : canonDigits g = g := by
  cases g with
  | nil => exact absurd rfl hne
  | cons c rest =>
    simp only [canonicalCount, Bool.and_eq_true, Bool.or_eq_true] at hc
    rcases hc.2 with hz | hrest
    · have hcz : (c == '0') = false := by simpa using hz
      simp only [canonDigits, List.dropWhile_cons, hcz]
      rfl
    · have hrest2 : rest = [] := by simpa using hrest
      subst hrest2
      by_cases hcz : c = '0'
      · subst hcz
        rfl
      · have hcb : (c == '0') = false := by simpa using hcz
        simp only [canonDigits, List.dropWhile_cons, hcb, Bool.false_eq_true,
          if_false]

/-- On a nonempty all-digit count, the integer round trip is the
leading-zero normalization. -/
theorem pyIntCanon_digits {g : List Char} (hg : digitsOnly g = true)
    (hne : g ≠ []) : pyIntCanon g = some (canonDigits g) := by
  have hst : stripWS g = g := stripWS_digits hg
  cases g with
  | nil => exact absurd rfl hne
  | cons c cs =>
    have hcd : isDigitCh c = true := by
      simp only [digitsOnly, List.all_eq_true] at hg
      simpa using hg c (List.mem_cons_self _ _)
    have hm : (c == '-') = false := by
      rw [beq_eq_false_iff_ne]
      intro h
      subst h
      revert hcd
      decide
    have hp : (c == '+') = false := by
      rw [beq_eq_false_iff_ne]
      intro h
      subst h
      revert hcd
      decide
    simp only [pyIntCanon, hst, hm, hp, Bool.false_eq_true, if_false]
    rw [if_pos (by simp only [List.isEmpty_cons, Bool.not_false,
      Bool.true_and]; simpa [digitsOnly] using hg)]
    simp

/-- The count normalization on an all-digit count computes `digitNorm`. -/
theorem normCount_digitsOnly {g : List Char} (hg : digitsOnly g = true) :
    normCount g = some (digitNorm g) := by
  by_cases h : g.isEmpty || g == ['1']
  · simp only [normCount, digitNorm, if_pos h]
  · simp only [normCount, digitNorm, if_neg h]
    apply pyIntCanon_digits hg
    intro hnil
    subst hnil
    simp at h

/-- The count normalization leaves a canonical count other than "1"
unchanged. -/
theorem normCount_canonical_stable {g : List Char}
    (hc : canonicalCount g = true) (hne1 : g ≠ ['1']) :
    normCount g = some g := by
  by_cases hemp : g = []
  · subst hemp
    rfl
  · have hcond : (g.isEmpty || g == ['1']) = false := by
      simp [hemp, hne1]
    simp only [normCount, hcond, Bool.false_eq_true, if_false]
    rw [pyIntCanon_digits (canonicalCount_digitsOnly hc) hemp,
      canonDigits_of_canonical hc hemp]

/-- The normalized count of an all-digit count is all digits. -/
theorem digitNorm_digitsOnly {g : List Char} (hg : digitsOnly g = true) :
    digitsOnly (digitNorm g) = true := by
  by_cases h : g.isEmpty || g == ['1']
  · simp [digitNorm, h, digitsOnly]
  · simp only [digitNorm, h, Bool.false_eq_true, if_false]
    simp only [canonDigits]
    cases hd : g.dropWhile (· == '0') with
    | nil => decide
    | cons c r =>
      have hsub : (c :: r).Sublist g := hd ▸ List.dropWhile_sublist _
      simp only [digitsOnly, List.all_eq_true] at hg ⊢
      intro x hx
      exact hg x (hsub.subset hx)

/-- The normalized count of a canonical count is either empty or the count
itself (which then is neither empty nor "1"). -/
theorem digitNorm_canonical_cases {g : List Char}
    (hc : canonicalCount g = true) :
    digitNorm g = [] ∨ (digitNorm g = g ∧ g ≠ ['1'] ∧ g ≠ []) := by
  by_cases h : g.isEmpty || g == ['1']
  · left
    simp [digitNorm, h]
  · right
    have hemp : g ≠ [] := by
      intro hnil
      subst hnil
      simp at h
    have hne1 : g ≠ ['1'] := by
      intro hone
      subst hone
      simp at h
    refine ⟨?_, hne1, hemp⟩
    simp only [digitNorm, h, Bool.false_eq_true, if_false]
    exact canonDigits_of_canonical hc hemp

/-- The batch normalization on all-digit counts maps `digitNorm`. -/
theorem normAll_digits : ∀ {nums : List (List Char)},
    (∀ g ∈ nums, digitsOnly g = true) →
    normAll nums = some (nums.map digitNorm) := by
  intro nums
  induction nums with
  | nil => intro h; rfl
  | cons n ns ih =>
    intro h
    simp only [normAll, normCount_digitsOnly (h n (List.mem_cons_self _ _)),
      ih (fun g hg => h g (List.mem_cons_of_mem _ hg)), List.map_cons]

/-- The batch normalization is the identity on canonical counts none of
which is "1". -/
theorem normAll_stable : ∀ {nums : List (List Char)},
    (∀ g ∈ nums, canonicalCount g = true ∧ g ≠ ['1']) →
    normAll nums = some nums := by
  intro nums
  induction nums with
  | nil => intro h; rfl
  | cons n ns ih =>
    intro h
    obtain ⟨hc, hne⟩ := h n (List.mem_cons_self _ _)
    simp only [normAll, normCount_canonical_stable hc hne,
      ih (fun g hg => h g (List.mem_cons_of_mem _ hg))]

/-! ## Lemmas about reassembly and re-parsing -/

/-- Shape of a valid element token. -/
theorem validElemTok_shape {el : List Char} (h : validElemTok el = true) :
    (∃ u, el = [u] ∧ isUpperCh u = true) ∨
    (∃ u l2, el = [u, l2] ∧ isUpperCh u = true ∧ isLowerCh l2 = true) := by
  match el with
  | [] => simp [validElemTok] at h
  | [u] => exact Or.inl ⟨u, rfl, by simpa [validElemTok] using h⟩
  | [u, l2] =>
    simp only [validElemTok, Bool.and_eq_true] at h
    exact Or.inr ⟨u, l2, rfl, h.1, h.2⟩
  | u :: l2 :: c :: rest => simp [validElemTok] at h

/-- A valid element token starts with an uppercase character. -/
theorem validElemTok_head {el : List Char} (h : validElemTok el = true) :
    ∃ u elt, el = u :: elt ∧ isUpperCh u = true := by
  rcases validElemTok_shape h with ⟨u, rfl, hu⟩ | ⟨u, l2, rfl, hu, _⟩
  · exact ⟨u, [], rfl, hu⟩
  · exact ⟨u, [l2], rfl, hu⟩

/-- The reassembly of a non-empty valid pair list starts with an uppercase
character. -/
theorem joinPairs_head {l : List (List Char × List Char)}
    (hv : ValidPairs l) (hne : l ≠ []) :
    ∃ u t, joinPairs l = u :: t ∧ isUpperCh u = true := by
  cases l with
  | nil => exact absurd rfl hne
  | cons p rest =>
    obtain ⟨hel, _⟩ := hv p (List.mem_cons_self _ _)
    obtain ⟨u, elt, heq, hu⟩ := validElemTok_head hel
    refine ⟨u, elt ++ p.2 ++ joinPairs rest, ?_, hu⟩
    show p.1 ++ p.2 ++ joinPairs rest = _
    rw [heq]
    simp

/-- Re-scanning a reassembled valid pair list recovers exactly the element
tokens as matches and the counts as gaps. -/
theorem regexScan_joinPairs : ∀ l : List (List Char × List Char),
    ValidPairs l →
    regexScan (joinPairs l) = ([] :: l.map Prod.snd, l.map Prod.fst) := by
  intro l
  induction l with
  | nil => intro hv; rfl
  | cons p rest ih =>
    intro hv
    obtain ⟨hel, hnum⟩ := hv p (List.mem_cons_self _ _)
    have hvrest : ValidPairs rest := fun q hq => hv q (List.mem_cons_of_mem _ hq)
    have ihr := ih hvrest
    have hnum2 : ∀ c ∈ p.2, isUpperCh c = false := by
      intro c hc
      apply isDigitCh_not_upper
      simp only [digitsOnly, List.all_eq_true] at hnum
      simpa using hnum c hc
    have hscan : regexScan (p.2 ++ joinPairs rest) =
        (p.2 :: rest.map Prod.snd, rest.map Prod.fst) := by
      have := regexScan_append_neutral p.2 hnum2 (joinPairs rest) []
        (rest.map Prod.snd) (rest.map Prod.fst) ihr
      simpa using this
    rcases validElemTok_shape hel with ⟨u, hu_eq, hu⟩ | ⟨u, l2, hu_eq, hu, hl2⟩
    · have hjp : joinPairs (p :: rest) = u :: (p.2 ++ joinPairs rest) := by
        show p.1 ++ p.2 ++ joinPairs rest = _
        rw [hu_eq]
        simp
      rw [hjp]
      cases hnj : p.2 ++ joinPairs rest with
      | nil =>
        have hp2 : p.2 = [] := List.append_eq_nil.mp hnj |>.1
        have hjr : joinPairs rest = [] := List.append_eq_nil.mp hnj |>.2
        have hrest : rest = [] := by
          by_contra hrne
          obtain ⟨u2, t2, hj2, _⟩ := joinPairs_head hvrest hrne
          rw [hj2] at hjr
          simp at hjr
        subst hrest
        simp only [regexScan, if_pos hu, hu_eq, hp2]
        simp
        exact ⟨hp2, hu_eq.symm⟩
      | cons d l3 =>
        have hdlow : isLowerCh d = false := by
          cases hp2 : p.2 with
          | cons nd ndt =>
            rw [hp2] at hnj
            have hnd : nd = d := (List.cons.inj hnj).1
            subst hnd
            apply isDigitCh_not_lower
            simp only [digitsOnly, List.all_eq_true] at hnum
            exact by simpa using hnum nd (by rw [hp2]; exact List.mem_cons_self _ _)
          | nil =>
            rw [hp2] at hnj
            simp only [List.nil_append] at hnj
            have hrne : rest ≠ [] := by
              intro hr0
              subst hr0
              simp [joinPairs] at hnj
            obtain ⟨u2, t2, hj2, hu2⟩ := joinPairs_head hvrest hrne
            rw [hj2] at hnj
            have hud : u2 = d := (List.cons.inj hnj).1
            subst hud
            exact isUpperCh_not_lower hu2
        rw [hnj] at hscan
        simp only [regexScan, if_pos hu, hdlow, Bool.false_eq_true, if_false,
          hscan]
        simp [hu_eq]
    · have hjp : joinPairs (p :: rest) = u :: l2 :: (p.2 ++ joinPairs rest) := by
        show p.1 ++ p.2 ++ joinPairs rest = _
        rw [hu_eq]
        simp
      rw [hjp]
      cases hnj : p.2 ++ joinPairs rest with
      | nil =>
        have hp2 : p.2 = [] := (List.append_eq_nil.mp hnj).1
        have hjr : joinPairs rest = [] := (List.append_eq_nil.mp hnj).2
        have hrest : rest = [] := by
          by_contra hrne
          obtain ⟨u2, t2, hj2, _⟩ := joinPairs_head hvrest hrne
          rw [hj2] at hjr
          simp at hjr
        subst hrest
        simp only [regexScan, if_pos hu, if_pos hl2, hu_eq, hp2]
        simp
        exact ⟨hp2, hu_eq.symm⟩
      | cons d l3 =>
        rw [hnj] at hscan
        simp only [regexScan, if_pos hu, if_pos hl2, hscan]
        simp [hu_eq]

/-! ## Lemmas about the pair sort -/

/-- The sort model produces a `PairLe`-sorted list. -/
theorem sortPairs_sorted (l : List (List Char × List Char)) :
    List.Sorted PairLe (sortPairs l) :=
  List.sorted_insertionSort PairLe l

/-- The sort model permutes its input. -/
theorem sortPairs_perm (l : List (List Char × List Char)) :
    List.Perm (sortPairs l) l :=
  List.perm_insertionSort PairLe l

/-- Sorting twice is sorting once. -/
theorem sortPairs_idem (l : List (List Char × List Char)) :
    sortPairs (sortPairs l) = sortPairs l :=
  (sortPairs_sorted l).insertionSort_eq

/-- Permuted inputs sort identically (sorted permutations are unique for
the total, transitive, antisymmetric `PairLe`). -/
theorem sortPairs_eq_of_perm {l1 l2 : List (List Char × List Char)}
    (h : List.Perm l1 l2) : sortPairs l1 = sortPairs l2 :=
  List.eq_of_perm_of_sorted
    ((sortPairs_perm l1).trans (h.trans (sortPairs_perm l2).symm))
    (sortPairs_sorted l1) (sortPairs_sorted l2)

/-! ## The sanitizer round trip -/

/-- On a formula whose counts are canonically written, one sanitization
pass produces an output that a second pass leaves unchanged. -/
theorem sanitizeChars_idem {s : List Char}
    (hc : ∀ g ∈ (regexScan s).1.drop 1, canonicalCount g = true) :
    ∃ out, sanitizeChars s = some out ∧ sanitizeChars out = some out := by
  rcases hgm : regexScan s with ⟨gaps, els⟩
  obtain ⟨g0, nums, rfl⟩ : ∃ g0 nums, gaps = g0 :: nums := by
    cases gaps with
    | nil => exact absurd (by rw [hgm]) (regexScan_fst_ne_nil s)
    | cons a b => exact ⟨a, b, rfl⟩
  have hcanon : ∀ g ∈ nums, canonicalCount g = true := by
    intro g hgmem
    apply hc
    rw [hgm]
    simpa using hgmem
  have hdig : ∀ g ∈ nums, digitsOnly g = true := fun g hgmem =>
    canonicalCount_digitsOnly (hcanon g hgmem)
  have hnorm : normAll nums = some (nums.map digitNorm) := normAll_digits hdig
  have h1 : sanitizeChars s =
      some (joinPairs (sortPairs (List.zip els (nums.map digitNorm)))) := by
    simp only [sanitizeChars, hgm, List.drop_succ_cons, List.drop_zero, hnorm]
  refine ⟨joinPairs (sortPairs (List.zip els (nums.map digitNorm))), h1, ?_⟩
  have hvp : ValidPairs (sortPairs (List.zip els (nums.map digitNorm))) := by
    intro p hp
    have hp2 : p ∈ List.zip els (nums.map digitNorm) :=
      ((sortPairs_perm _).mem_iff).mp hp
    constructor
    · have hfst : p.1 ∈ els := (List.of_mem_zip hp2).1
      apply regexScan_matches_valid s
      rw [hgm]
      exact hfst
    · have hsnd : p.2 ∈ nums.map digitNorm := (List.of_mem_zip hp2).2
      obtain ⟨g, hgmem, hEq⟩ := List.mem_map.mp hsnd
      rw [← hEq]
      exact digitNorm_digitsOnly (hdig g hgmem)
  have hscan2 := regexScan_joinPairs _ hvp
  have hstab : normAll ((sortPairs (List.zip els (nums.map digitNorm))).map
      Prod.snd) = some ((sortPairs (List.zip els (nums.map digitNorm))).map
      Prod.snd) := by
    apply normAll_stable
    intro g hgmem
    obtain ⟨p, hp, hEq⟩ := List.mem_map.mp hgmem
    have hp2 : p ∈ List.zip els (nums.map digitNorm) :=
      ((sortPairs_perm _).mem_iff).mp hp
    have hsnd : p.2 ∈ nums.map digitNorm := (List.of_mem_zip hp2).2
    obtain ⟨g0', hg0, hEq2⟩ := List.mem_map.mp hsnd
    rcases digitNorm_canonical_cases (hcanon g0' hg0) with hcase | ⟨hcase, hne1, _⟩
    · rw [← hEq, ← hEq2, hcase]
      exact ⟨rfl, by simp⟩
    · rw [← hEq, ← hEq2, hcase]
      exact ⟨hcanon g0' hg0, hne1⟩
  simp only [sanitizeChars, hscan2, List.drop_succ_cons, List.drop_zero, hstab]
  rw [List.zip_map']
  have hmap : (sortPairs (List.zip els (nums.map digitNorm))).map
      (fun x => (x.1, x.2)) = sortPairs (List.zip els (nums.map digitNorm)) := by
    simp
  rw [hmap, sortPairs_idem]

/-- Sanitization of a reassembled valid pair list is invariant under
permutation of the pairs. -/
theorem sanitizeChars_perm {l1 l2 : List (List Char × List Char)}
    (hperm : List.Perm l1 l2) (hv : ValidPairs l1) :
    sanitizeChars (joinPairs l1) = sanitizeChars (joinPairs l2) := by
  have hv2 : ValidPairs l2 := fun p hp => hv p (hperm.mem_iff.mpr hp)
  have h1 := regexScan_joinPairs l1 hv
  have h2 := regexScan_joinPairs l2 hv2
  have hd1 : ∀ g ∈ l1.map Prod.snd, digitsOnly g = true := by
    intro g hg
    obtain ⟨p, hp, hEq⟩ := List.mem_map.mp hg
    rw [← hEq]
    exact (hv p hp).2
  have hd2 : ∀ g ∈ l2.map Prod.snd, digitsOnly g = true := by
    intro g hg
    obtain ⟨p, hp, hEq⟩ := List.mem_map.mp hg
    rw [← hEq]
    exact (hv2 p hp).2
  simp only [sanitizeChars, h1, h2, List.drop_succ_cons, List.drop_zero,
    normAll_digits hd1, normAll_digits hd2]
  have hzip : ∀ l : List (List Char × List Char),
      List.zip (l.map Prod.fst) ((l.map Prod.snd).map digitNorm) =
        l.map (fun p => (p.1, digitNorm p.2)) := by
    intro l
    rw [List.map_map, List.zip_map']
    rfl
  rw [hzip, hzip, sortPairs_eq_of_perm (hperm.map _)]

/-- C4 counterexample: sanitization is NOT idempotent.  The count "01" is
normalized to "1" by `str(int("01"))` (the string-level guard `!= "1"`
does not fire), so sanitize("Na01") = "Na1"; but a second pass turns the
now-literal count "1" into the empty suffix: sanitize("Na1") = "Na". -/
theorem c4_sanitize_idem_counterexample :
    _sanitize_formula "Na01" = some "Na1" ∧
    _sanitize_formula "Na1" = some "Na" ∧
    (_sanitize_formula "Na01").bind _sanitize_formula ≠
      _sanitize_formula "Na01" := by
  refine ⟨by decide, by decide, by decide⟩

/-- C4 amended: sanitization is idempotent on every formula whose count
tokens are canonically written decimals (no leading zeros, no signs, no
whitespace) — the counterexample "Na01" forces exactly this restriction;
it is independent of the order of the (element, count) pairs in the input;
and sanitize("NaCoO2") = sanitize("Na1Co1O2") = "CoNaO2" with elements
sorted alphabetically and unit counts rendered as the empty suffix. -/
theorem c4_sanitize_amended :
    (∀ f : String, CanonicalCounts f →
      (_sanitize_formula f).bind _sanitize_formula = _sanitize_formula f) ∧
    (∀ l1 l2 : List (List Char × List Char), List.Perm l1 l2 →
      ValidPairs l1 →
      sanitizeChars (joinPairs l1) = sanitizeChars (joinPairs l2)) ∧
    _sanitize_formula "NaCoO2" = some "CoNaO2" ∧
    _sanitize_formula "Na1Co1O2" = some "CoNaO2" := by
  refine ⟨?_, fun l1 l2 hp hv => sanitizeChars_perm hp hv, by decide, by decide⟩
  intro f hcf
  obtain ⟨out, h1, h2⟩ := sanitizeChars_idem (s := f.data) hcf
  simp only [_sanitize_formula, h1, Option.map_some, Option.some_bind]
  show (sanitizeChars (String.mk out).data).map String.mk = some (String.mk out)
  rw [show (String.mk out).data = out from rfl, h2]
  rfl

/-- C4 witness: "NaCoO2" has canonical counts and sanitizes idempotently;
swapping the (element, count) pairs of Na-O2 leaves the sanitized result
unchanged. -/
theorem c4_sanitize_amended_witness :
    CanonicalCounts "NaCoO2" ∧
    (_sanitize_formula "NaCoO2").bind _sanitize_formula =
      _sanitize_formula "NaCoO2" ∧
    List.Perm [(['N', 'a'], ([] : List Char)), (['O'], ['2'])]
      [(['O'], ['2']), (['N', 'a'], ([] : List Char))] ∧
    sanitizeChars (joinPairs [(['N', 'a'], ([] : List Char)), (['O'], ['2'])]) =
      sanitizeChars (joinPairs [(['O'], ['2']), (['N', 'a'], ([] : List Char))]) :=
  ⟨by unfold CanonicalCounts; decide,
   c4_sanitize_amended.1 "NaCoO2" (by unfold CanonicalCounts; decide),
   List.Perm.swap _ _ _,
   c4_sanitize_amended.2.1 _ _ (List.Perm.swap _ _ _)
     (by unfold ValidPairs; decide)⟩
